import Mathlib

/-!
Shallow embedding of the any-dns UDP DNS relay.

Sources embedded here:
  * `src/main.rs` — the relay loop `AnyDNS::run`, the id allocator
    `AnyDNS::next_id`, the `Default` instance, and the `PendingQuery` record.
  * `src/server.rs` — `Builder::calculate_id_range`.

Modelling conventions:
  * bytes and u16 values are `Nat` with explicit `% 65536` (resp. `% 256`)
    where wrapping matters;
  * socket addresses are `Nat` (an injective encoding of ip/port quadruples);
  * the external crate `simple_dns` is modelled by an executable codec
    (`parsePacket` / `buildBytesVec`) that keeps exactly the facts the relay
    relies on: a packet has a 16-bit transaction id stored big-endian in the
    first two bytes, a question section and an answer section;
  * `std::collections::HashMap` is modelled by an association list together
    with the `insert` (overwrite) and `remove` (check-and-remove) contract;
  * a Rust `.unwrap()` panic is modelled by `Option.none` as the outcome of a
    loop iteration: `none` means the process aborts, `some` means the loop
    continues with the new state and the datagrams it sent.
-/

/-- Socket addresses, abstract but concrete: an injective `Nat` encoding. -/
abbrev Addr := Nat

/-- `SocketAddr::from(([a, b, c, d], port))`. -/
def addrOf (a b c d port : Nat) : Addr :=
  (((a * 256 + b) * 256 + c) * 256 + d) * 65536 + port

/-- Model of `simple_dns::Packet` (external crate), restricted to the fields
the relay reads and writes: transaction id, question section, answer section.
Question and answer records are abstract tokens. -/
structure Packet where
  id : Nat
  questions : List Nat
  answers : List Nat
deriving Repr, DecidableEq

/-- Model of `simple_dns::Packet::parse`: an executable codec in which the
first two bytes are the big-endian transaction id, the third byte is the
question count, followed by the question records and then the answer
records.  Parsing fails (returns `none`) on anything shorter. -/
def parsePacket : List Nat → Option Packet
  | b0 :: b1 :: qn :: rest =>
      if qn ≤ rest.length then
        some { id := b0 * 256 + b1, questions := rest.take qn, answers := rest.drop qn }
      else none
  | _ => none

/-- Model of `simple_dns::Packet::build_bytes_vec` for the codec above. -/
def buildBytesVec (p : Packet) : List Nat :=
  p.id % 65536 / 256 :: p.id % 256 :: p.questions.length :: (p.questions ++ p.answers)

/-- `simple_dns::Packet::new_reply(id)`: a packet with the given id and empty
question and answer sections. -/
def newReply (id : Nat) : Packet :=
  { id := id, questions := [], answers := [] }

/-- `main.rs` lines 7-11: the pending-query record (sender address and the raw
bytes of the original query). -/
structure PendingQuery where
  from_ : Addr
  query : List Nat
deriving Repr, DecidableEq

/-- The pending-query store, a model of `HashMap<u16, PendingQuery>`. -/
abbrev PendingMap := List (Nat × PendingQuery)

/-- `HashMap::insert`: stores `v` under `k`, overwriting any entry already
present under `k`; never fails. -/
def hmInsert (m : PendingMap) (k : Nat) (v : PendingQuery) : PendingMap :=
  (k, v) :: m.filter (fun kv => kv.1 != k)

/-- `HashMap::remove`: returns the entry stored under `k` (if any) and the
store with that entry removed; the store is unchanged when `k` is absent. -/
def hmRemove (m : PendingMap) (k : Nat) : Option PendingQuery × PendingMap :=
  match m.find? (fun kv => kv.1 == k) with
  | some kv => (some kv.2, m.filter (fun kv => kv.1 != k))
  | none => (none, m)

/-- `main.rs` lines 13-17: the relay state. -/
structure AnyDNS where
  next_id : Nat
  icann_resolver : Addr
  pending_queries : PendingMap
deriving Repr, DecidableEq

/-- `main.rs` lines 75-79, `AnyDNS::next_id`:
```
let id = self.next_id;
let _ = self.next_id.wrapping_add(1);
id
```
The result of `wrapping_add(1)` is bound to `_` and discarded, so the stored
counter is never updated: the returned state is the input state. -/
def AnyDNS.nextId (s : AnyDNS) : Nat × AnyDNS :=
  let id := s.next_id
  let _ := (s.next_id + 1) % 65536
  (id, s)

/-- `main.rs` lines 82-92, `AnyDNS::default`. -/
def defaultAnyDNS : AnyDNS :=
  { next_id := 0
    icann_resolver := addrOf 192 168 1 1 53
    pending_queries := [] }

/-- `main.rs` lines 66-68: write `id.to_be_bytes()` over bytes 0 and 1 of the
query buffer. -/
def rewriteId (bytes : List Nat) (id : Nat) : List Nat :=
  (bytes.set 0 (id % 65536 / 256)).set 1 (id % 256)

/-- `main.rs` lines 33-54: the branch of the loop body taken when the datagram
comes from the icann resolver.  `none` models the `.unwrap()` panics on parse
failure (lines 34 and 38). -/
def handleUpstream (s : AnyDNS) (bytes : List Nat) :
    Option (AnyDNS × List (Addr × List Nat)) :=
  match parsePacket bytes with
  | none => none
  | some packet =>
    match hmRemove s.pending_queries packet.id with
    | (none, _) => some (s, [])
    | (some pq, pending) =>
      match parsePacket pq.query with
      | none => none
      | some original_query =>
        let reply := newReply original_query.id
        let reply := { reply with answers := reply.answers ++ packet.answers }
        let reply := { reply with questions := reply.questions ++ original_query.questions }
        some ({ s with pending_queries := pending }, [(pq.from_, buildBytesVec reply)])

/-- `main.rs` lines 55-71: the branch of the loop body taken when the datagram
comes from a client.  The raw (un-rewritten) bytes are stored first, then the
id bytes are written over positions 0 and 1 and the datagram is forwarded to
the icann resolver.  `none` models the out-of-bounds panic of `query[0]` /
`query[1]` when the datagram is shorter than two bytes. -/
def handleClient (s : AnyDNS) (from_ : Addr) (bytes : List Nat) :
    Option (AnyDNS × List (Addr × List Nat)) :=
  let p := s.nextId
  let s1 := { p.2 with
    pending_queries := hmInsert p.2.pending_queries p.1 { from_ := from_, query := bytes } }
  if 2 ≤ bytes.length then
    some (s1, [(s1.icann_resolver, rewriteId bytes p.1)])
  else none

/-- `main.rs` lines 29-71: one iteration of the relay loop, after the bytes
have been received.  Dispatches on the sender address (line 33). -/
def step (s : AnyDNS) (from_ : Addr) (bytes : List Nat) :
    Option (AnyDNS × List (Addr × List Nat)) :=
  if from_ = s.icann_resolver then handleUpstream s bytes
  else handleClient s from_ bytes

/-- `main.rs` line 24: the receive buffer is `[0; 1024]`. -/
def bufferSize : Nat := 1024

/-- `main.rs` lines 24-31: `recv_from` writes at most `bufferSize` bytes of the
inbound datagram into the buffer and returns how many it wrote; the loop then
works on `buffer[..size]`. -/
def receive (datagram : List Nat) : List Nat :=
  let buffer := List.replicate bufferSize 0
  let size := min datagram.length buffer.length
  ((datagram.take buffer.length) ++ buffer.drop size).take size

/-- One iteration of the relay loop starting from the raw inbound datagram:
receive into the fixed buffer, then dispatch. -/
def recvStep (s : AnyDNS) (from_ : Addr) (datagram : List Nat) :
    Option (AnyDNS × List (Addr × List Nat)) :=
  step s from_ (receive datagram)

/-- `server.rs` lines 80-86, `Builder::calculate_id_range`:
```
let bucket_size = u16::MAX / thread_count;
Range { start: i * bucket_size, end: (i + 1) * bucket_size - 1 }
```
returned as the pair `(start, end)` of a half-open interval, with u16
arithmetic made explicit (`- 1` is wrapping subtraction). -/
def calculate_id_range (thread_count i : Nat) : Nat × Nat :=
  let bucket_size := 65535 / thread_count
  (i * bucket_size % 65536, ((i + 1) * bucket_size % 65536 + 65535) % 65536)

/-- Membership in a Rust `Range { start, end }`: `start ≤ x < end`. -/
def inRange (r : Nat × Nat) (x : Nat) : Prop :=
  r.1 ≤ x ∧ x < r.2

/-- C2: `AnyDNS::next_id` is claimed to return the current counter and advance
it by one (wrapping), so that two consecutive allocations return distinct ids.
The code binds the result of `wrapping_add(1)` to `_` and discards it, so the
counter never advances: starting from the default state, two consecutive
calls both return 0 and the state is unchanged. -/
theorem next_id_counter_stuck :
    (defaultAnyDNS.nextId).1 = 0 ∧
    (((defaultAnyDNS.nextId).2).nextId).1 = 0 ∧
    (defaultAnyDNS.nextId).2 = defaultAnyDNS :=
  ⟨rfl, rfl, rfl⟩

/-- C3: `Builder::calculate_id_range` is claimed to return the half-open range
`[i*bucket, (i+1)*bucket)` with nothing additionally subtracted from the upper
bound.  At `thread_count = 1`, `i = 0` the code returns upper bound 65534,
while `(0+1) * (65535/1) = 65535`: the code subtracts 1 from the already
exclusive bound. -/
theorem calculate_id_range_end_off_by_one :
    calculate_id_range 1 0 = (0, 65534) ∧ (0 + 1) * (65535 / 1) = 65535 :=
  ⟨rfl, rfl⟩

/-- C5: the relay loop is claimed to drop malformed datagrams and continue,
never terminating on malformed input.  In the code, an unparseable datagram
arriving from the icann resolver address reaches
`Packet::parse(query).unwrap()`, which panics (modelled by `none`) and
terminates the loop. -/
theorem parse_failure_panics :
    step defaultAnyDNS defaultAnyDNS.icann_resolver [] = none :=
  rfl

/-- C8: `HashMap::insert` on the pending-query store stores the entry under
the id, overwriting any entry already present under that id (a subsequent
take yields the new entry); it is a total operation and never fails. -/
theorem insert_overwrites (m : PendingMap) (k : Nat) (v : PendingQuery) :
    (hmRemove (hmInsert m k v) k).1 = some v := by
  simp [hmInsert, hmRemove, List.find?]

/-- C6: after `take(id)` (`HashMap::remove`) returns the stored entry once, an
immediately following `take(id)` with no intervening insert for that id
returns nothing, so a pending query is completed at most once even when a
duplicate upstream packet with that id arrives. -/
theorem take_at_most_once (m m' : PendingMap) (id : Nat) (pq : PendingQuery)
    (h : hmRemove m id = (some pq, m')) :
    (hmRemove m' id).1 = none := by
  unfold hmRemove at h ⊢
  cases hf : m.find? (fun kv => kv.1 == id) with
  | none => rw [hf] at h; simp at h
  | some kv =>
    rw [hf] at h
    have hm' : m' = m.filter (fun kv => kv.1 != id) := (Prod.mk.injEq _ _ _ _ ▸ h).2.symm
    subst hm'
    have hnone : (m.filter (fun kv => kv.1 != id)).find? (fun kv => kv.1 == id) = none := by
      rw [List.find?_eq_none]
      intro x hx
      have := (List.mem_filter.mp hx).2
      simp_all
    rw [hnone]

/-- Witness for `take_at_most_once` at a concrete one-entry store. -/
theorem take_at_most_once_witness :
    (hmRemove (hmRemove [(5, ⟨7, [1, 2]⟩)] 5).2 5).1 = none :=
  take_at_most_once [(5, ⟨7, [1, 2]⟩)] _ 5 ⟨7, [1, 2]⟩ rfl

/-- C10: every inbound datagram is received into the fixed 1024-byte buffer:
the bytes the loop goes on to parse, store and forward are exactly the first
1024 bytes of the datagram (anything beyond is silently discarded), and one
loop iteration on the raw datagram equals the iteration on that prefix. -/
theorem buffer_truncation (s : AnyDNS) (from_ : Addr) (d : List Nat) :
    receive d = d.take 1024 ∧ (receive d).length ≤ 1024 ∧
    recvStep s from_ d = step s from_ (d.take 1024) := by
  have h : receive d = d.take 1024 := by
    unfold receive bufferSize
    simp only [List.length_replicate]
    rw [List.take_append_eq_append_take]
    simp only [List.length_take, List.take_take]
    have h1 : min (min d.length 1024) 1024 = min d.length 1024 := by omega
    have h2 : min d.length 1024 - min 1024 d.length = 0 := by omega
    rw [h1, h2]
    simp only [List.take_zero, List.append_nil]
    rw [List.take_eq_take]
    omega
  refine ⟨h, ?_, ?_⟩
  · rw [h]; simp only [List.length_take]; omega
  · unfold recvStep; rw [h]

/-- C7: when a client query is forwarded upstream, the forwarded datagram is
the received one with only bytes 0 and 1 (the big-endian 16-bit transaction
id) rewritten: the length and every byte at position 2 and beyond are
unchanged. -/
theorem forward_rewrites_only_id (s : AnyDNS) (from_ : Addr) (bytes : List Nat)
    (h : 2 ≤ bytes.length) :
    ∃ s1 : AnyDNS,
      handleClient s from_ bytes =
        some (s1, [(s.icann_resolver, rewriteId bytes s.next_id)]) ∧
      (rewriteId bytes s.next_id).length = bytes.length ∧
      ∀ k : Nat, k ≠ 0 → k ≠ 1 → (rewriteId bytes s.next_id)[k]? = bytes[k]? := by
  refine ⟨{ s with pending_queries := hmInsert s.pending_queries s.next_id { from_ := from_, query := bytes } }, ?_, ?_, ?_⟩
  · unfold handleClient AnyDNS.nextId
    simp only [if_pos h]
  · unfold rewriteId
    simp [List.length_set]
  · intro k hk0 hk1
    unfold rewriteId
    rw [List.getElem?_set_ne (by omega), List.getElem?_set_ne (by omega)]

/-- Witness for `forward_rewrites_only_id` on a concrete three-byte query. -/
theorem forward_rewrites_only_id_witness :
    ∃ s1 : AnyDNS,
      handleClient defaultAnyDNS 99 [1, 2, 3] =
        some (s1, [(defaultAnyDNS.icann_resolver, rewriteId [1, 2, 3] defaultAnyDNS.next_id)]) ∧
      (rewriteId [1, 2, 3] defaultAnyDNS.next_id).length = [1, 2, 3].length ∧
      ∀ k : Nat, k ≠ 0 → k ≠ 1 →
        (rewriteId [1, 2, 3] defaultAnyDNS.next_id)[k]? = [1, 2, 3][k]? :=
  forward_rewrites_only_id defaultAnyDNS 99 [1, 2, 3] (by decide)

/-- C1: when an upstream reply parses and its id matches a pending client
query whose stored bytes parse, the relay emits exactly one packet: its
transaction id is the client's original id, its question section is the
original query's question section, its answers are exactly the upstream
reply's answer records, and it is sent to the original sender's address. -/
theorem relay_round_trip (s : AnyDNS) (bytes : List Nat) (packet : Packet)
    (pq : PendingQuery) (pending : PendingMap) (original_query : Packet)
    (hparse : parsePacket bytes = some packet)
    (htake : hmRemove s.pending_queries packet.id = (some pq, pending))
    (horig : parsePacket pq.query = some original_query) :
    handleUpstream s bytes =
      some ({ s with pending_queries := pending },
        [(pq.from_, buildBytesVec
            { id := original_query.id
              questions := original_query.questions
              answers := packet.answers })]) := by
  unfold handleUpstream
  simp only [hparse, htake, horig, newReply, List.nil_append]

/-- Witness for `relay_round_trip`: the client query with id `0x1234` (bytes
`[18, 52, 1, 3]`, one question record `3`) is pending under rewritten id 7;
the upstream reply `[0, 7, 0, 5]` (id 7, one answer record `5`) produces the
reply packet `{id 0x1234, questions [3], answers [5]}` sent to address 9. -/
theorem relay_round_trip_witness :
    handleUpstream
        { next_id := 0, icann_resolver := addrOf 192 168 1 1 53,
          pending_queries := [(7, { from_ := 9, query := [18, 52, 1, 3] })] }
        [0, 7, 0, 5] =
      some ({ next_id := 0, icann_resolver := addrOf 192 168 1 1 53,
              pending_queries := [] },
        [(9, buildBytesVec { id := 4660, questions := [3], answers := [5] })]) :=
  relay_round_trip _ _ { id := 7, questions := [], answers := [5] }
    { from_ := 9, query := [18, 52, 1, 3] } []
    { id := 4660, questions := [3], answers := [] } rfl rfl rfl

/-- C4: for every worker count `n` in 1..255 and distinct indices `i, j < n`,
the id ranges computed by `Builder::calculate_id_range` are disjoint: no id
belongs to both. -/
theorem calculate_id_range_disjoint (n i j x : Nat)
    (hn1 : 1 ≤ n) (hn : n ≤ 255) (hi : i < n) (hj : j < n) (hij : i ≠ j) :
    ¬(inRange (calculate_id_range n i) x ∧ inRange (calculate_id_range n j) x) := by
  intro hcon
  have hnb : n * (65535 / n) ≤ 65535 := by
    calc n * (65535 / n) = 65535 / n * n := Nat.mul_comm _ _
    _ ≤ 65535 := Nat.div_mul_le_self 65535 n
  have hb1 : 1 ≤ 65535 / n := (Nat.one_le_div_iff (by omega)).mpr (by omega)
  have hrange : ∀ k, k < n →
      calculate_id_range n k = (k * (65535 / n), (k + 1) * (65535 / n) - 1) := by
    intro k hk
    have hub : (k + 1) * (65535 / n) ≤ 65535 :=
      le_trans (mul_le_mul_right' (Nat.succ_le_of_lt hk) _) hnb
    have hlo : k * (65535 / n) ≤ (k + 1) * (65535 / n) :=
      mul_le_mul_right' (by omega) _
    have hlb : 1 ≤ (k + 1) * (65535 / n) :=
      le_trans hb1 (Nat.le_mul_of_pos_left _ (by omega))
    unfold calculate_id_range
    simp only [Prod.mk.injEq]
    omega
  have h1 := hrange i hi
  have h2 := hrange j hj
  simp only [inRange, h1, h2] at hcon
  rcases Nat.lt_or_ge i j with hlt | hge
  · have hm : (i + 1) * (65535 / n) ≤ j * (65535 / n) :=
      mul_le_mul_right' (by omega) _
    omega
  · have hlt : j < i := by omega
    have hm : (j + 1) * (65535 / n) ≤ i * (65535 / n) :=
      mul_le_mul_right' (by omega) _
    omega

/-- Witness for `calculate_id_range_disjoint` at `n = 2`, `i = 0`, `j = 1`,
`x = 0`. -/
theorem calculate_id_range_disjoint_witness :
    ¬(inRange (calculate_id_range 2 0) 0 ∧ inRange (calculate_id_range 2 1) 0) :=
  calculate_id_range_disjoint 2 0 1 0 (by decide) (by decide) (by decide)
    (by decide) (by decide)

/-- Reachable states of the `main.rs` relay loop: the `Default` state, closed
under successful loop iterations (a panicking iteration has no successor). -/
inductive Reachable : AnyDNS → Prop where
  | init : Reachable defaultAnyDNS
  | step (s s' : AnyDNS) (from_ : Addr) (datagram : List Nat)
      (sends : List (Addr × List Nat)) :
      Reachable s → recvStep s from_ datagram = some (s', sends) → Reachable s'

/-- Loop invariant of the `main.rs` relay: the id counter is still 0, every
key of the pending-query store is 0, and the store has at most one entry. -/
def RelayInv (s : AnyDNS) : Prop :=
  s.next_id = 0 ∧ (∀ kv ∈ s.pending_queries, kv.1 = 0) ∧
    s.pending_queries.length ≤ 1

lemma relayInv_step (s s' : AnyDNS) (from_ : Addr) (bytes : List Nat)
    (sends : List (Addr × List Nat)) (hinv : RelayInv s)
    (h : step s from_ bytes = some (s', sends)) : RelayInv s' := by
  obtain ⟨hid, hkeys, hlen⟩ := hinv
  unfold step at h
  by_cases hfrom : from_ = s.icann_resolver
  · rw [if_pos hfrom] at h
    unfold handleUpstream at h
    cases hp : parsePacket bytes with
    | none => simp only [hp] at h; exact Option.noConfusion h
    | some packet =>
      simp only [hp] at h
      rcases hrem : hmRemove s.pending_queries packet.id with ⟨opt, pending⟩
      cases opt with
      | none =>
        simp only [hrem, Option.some.injEq, Prod.mk.injEq] at h
        obtain ⟨h1, -⟩ := h
        subst h1
        exact ⟨hid, hkeys, hlen⟩
      | some pq =>
        simp only [hrem] at h
        cases ho : parsePacket pq.query with
        | none => simp only [ho] at h; exact Option.noConfusion h
        | some orig =>
          simp only [ho, Option.some.injEq, Prod.mk.injEq] at h
          obtain ⟨h1, -⟩ := h
          subst h1
          have hp2 : pending = s.pending_queries.filter (fun kv => kv.1 != packet.id) := by
            unfold hmRemove at hrem
            cases hf : s.pending_queries.find? (fun kv => kv.1 == packet.id) with
            | none => rw [hf] at hrem; simp at hrem
            | some kv => rw [hf] at hrem; exact ((Prod.mk.injEq _ _ _ _ ▸ hrem).2).symm
          subst hp2
          refine ⟨hid, ?_, ?_⟩
          · intro kv hkv
            exact hkeys kv (List.mem_filter.mp hkv).1
          · exact le_trans (List.length_filter_le _ _) hlen
  · rw [if_neg hfrom] at h
    unfold handleClient AnyDNS.nextId at h
    by_cases hlen2 : 2 ≤ bytes.length
    · simp only [if_pos hlen2, Option.some.injEq, Prod.mk.injEq] at h
      obtain ⟨h1, -⟩ := h
      subst h1
      have hnil : s.pending_queries.filter (fun kv => kv.1 != s.next_id) = [] := by
        rw [List.filter_eq_nil_iff]
        intro kv hkv
        simp [hkeys kv hkv, hid]
      refine ⟨hid, ?_, ?_⟩
      · intro kv hkv
        simp only [hmInsert, hnil, List.mem_singleton] at hkv
        rw [hkv, hid]
      · simp [hmInsert, hnil]
    · rw [if_neg hlen2] at h
      exact Option.noConfusion h

/-- C9: in every reachable state of the `main.rs` relay loop the id counter is
still 0 (it is initialized to 0 and `next_id` never updates it), so every
insert uses key 0 and the pending-query store holds at most one entry. -/
theorem pending_map_at_most_one (s : AnyDNS) (h : Reachable s) :
    s.next_id = 0 ∧ s.pending_queries.length ≤ 1 := by
  have hinv : RelayInv s := by
    induction h with
    | init => exact ⟨rfl, by simp [defaultAnyDNS], by simp [defaultAnyDNS]⟩
    | step s s' from_ d sends hr hstep ih =>
      exact relayInv_step s s' from_ (receive d) sends ih hstep
  exact ⟨hinv.1, hinv.2.2⟩

/-- Witness for `pending_map_at_most_one` at the initial state. -/
theorem pending_map_at_most_one_witness :
    defaultAnyDNS.next_id = 0 ∧ defaultAnyDNS.pending_queries.length ≤ 1 :=
  pending_map_at_most_one defaultAnyDNS Reachable.init
